import Mathlib

/-!
Verification of the reference-counted handle core of
`src/rclpy/src/rclpy/_rclpy_handle.c`.

The embedding models pointers as natural-number addresses into an explicit
heap (an association list from addresses to handle records), with address
`0` never used for a live handle so that a dangling read simply misses the
heap.  `size_t` arithmetic is `Nat` arithmetic reduced modulo `2 ^ 64`.
The allocator is modeled by a boolean oracle stating whether the next
allocation request succeeds.  Destructor function pointers are modeled as
optional identifiers; a destructor invocation and the two `deallocate`
calls of the teardown path are recorded as events in an observable trace.
The recursion of `_rclpy_handle_dec_ref` is modeled with explicit fuel;
`none` means the fuel ran out before the call completed.
-/

/-- Modulus of `size_t` arithmetic, here modeled as 64 bits: `2 ^ 64`. -/
def USIZE : Nat := 18446744073709551616

/-- Post-increment `x++` on a `size_t` field, as a pure function. -/
def szInc (n : Nat) : Nat := (n + 1) % USIZE

/-- Post-decrement `x--` on a `size_t` field, as a pure function. -/
def szDec (n : Nat) : Nat := (n + (USIZE - 1)) % USIZE

/-- Model of `struct rclpy_handle_t` (rclpy_handle.h, lines 36-43).
`ptr` is the opaque resource address; `dependencies` is `none` when the C
array pointer is `NULL`, otherwise the array contents; the recorded size
`num_of_dependencies` is kept as a separate field exactly as in the C
struct; `destructor` is `none` for a `NULL` function pointer, otherwise an
identifier for the callback. -/
structure rclpy_handle_t where
  ptr : Nat
  ref_count : Nat
  dependencies : Option (List Nat)
  num_of_dependencies : Nat
  destructor : Option Nat
  deriving DecidableEq, Repr

/-- Heap: association list from addresses to handle records. -/
abbrev Heap : Type := List (Nat × rclpy_handle_t)

/-- Read the record at address `a` (first matching entry). -/
def hget : Heap → Nat → Option rclpy_handle_t
  | [], _ => none
  | (b, r) :: t, a => if b = a then some r else hget t a

/-- Store through a valid pointer: replace the record at address `a`.
Writing to an absent address changes nothing. -/
def hset : Heap → Nat → rclpy_handle_t → Heap
  | [], _, _ => []
  | (b, r) :: t, a, x => if b = a then (b, x) :: t else (b, r) :: hset t a x

/-- Deallocate the record at address `a`. -/
def herase : Heap → Nat → Heap
  | [], _ => []
  | (b, r) :: t, a => if b = a then herase t a else (b, r) :: herase t a

/-- Observable events of the teardown path of `_rclpy_handle_dec_ref`:
the destructor callback invocation `handle->destructor(handle->ptr)`, the
call `allocator.deallocate(handle->dependencies, ...)`, and the call
`allocator.deallocate(handle, ...)`. -/
inductive Event where
  | destructorCall (d : Nat) (p : Nat)
  | freeDeps (a : Nat)
  | freeHandle (a : Nat)
  deriving DecidableEq, Repr

/-- Program state: the heap of live handles plus the event trace, in
chronological order. -/
structure HState where
  heap : Heap
  events : List Event
  deriving DecidableEq

/-- Model of `_rclpy_create_handle` (lines 25-42).  `freshAddr` is the
address the allocator hands out on success (assumed unused, nonzero);
`alloc_ok` tells whether `allocator.zero_allocate` succeeds.  On failure
the C code jumps to `fail`, calls `allocator.deallocate(NULL, ...)` (a
no-op) and returns `NULL`, so the heap is unchanged and the result is
`none`. -/
def _rclpy_create_handle (heap : Heap) (freshAddr : Nat) (p : Nat)
    (destructor : Option Nat) (alloc_ok : Bool) : Heap × Option Nat :=
  match alloc_ok with
  | false => (heap, none)
  | true =>
    -- allocator.zero_allocate: every field of the new record is zero/NULL.
    let zeroed : rclpy_handle_t :=
      { ptr := 0
        ref_count := 0
        dependencies := none
        num_of_dependencies := 0
        destructor := none }
    -- handle->ptr = ptr; handle->ref_count++; handle->destructor = destructor;
    let handle : rclpy_handle_t :=
      { zeroed with
        ptr := p
        ref_count := szInc zeroed.ref_count
        destructor := destructor }
    ((freshAddr, handle) :: heap, some freshAddr)

/-- Model of `_rclpy_handle_add_dependency` (lines 49-69).  `alloc_ok`
tells whether `allocator.reallocate` succeeds.  The returned boolean is
`true` for `RCUTILS_RET_OK` and `false` for `RCUTILS_RET_ERROR`.  A call
on an address not in the heap is undefined behavior in C (the arguments
are only asserted non-NULL); it is modeled as an error return. -/
def _rclpy_handle_add_dependency (heap : Heap) (dependent dependency : Nat)
    (alloc_ok : Bool) : Heap × Bool :=
  match hget heap dependent with
  | none => (heap, false)
  | some depRec =>
    -- dependent->num_of_dependencies++;
    let n : Nat := szInc depRec.num_of_dependencies
    let heap1 : Heap := hset heap dependent { depRec with num_of_dependencies := n }
    match alloc_ok with
    | false =>
      -- reallocate failed: return RCUTILS_RET_ERROR.
      -- Note the increment of num_of_dependencies is not rolled back.
      (heap1, false)
    | true =>
      -- reallocate preserves the old contents and leaves the fresh slot
      -- uninitialized (modeled as the junk address 0, never a live handle);
      -- then new_dependencies[n - 1] = dependency;
      let old : List Nat := depRec.dependencies.getD []
      let grown : List Nat := old.take n ++ List.replicate (n - old.length) 0
      let written : List Nat := grown.set (n - 1) dependency
      -- dependent->dependencies = new_dependencies;
      let heap2 : Heap :=
        hset heap1 dependent
          { depRec with
            num_of_dependencies := n
            dependencies := some written }
      -- dependency->ref_count++;
      match hget heap2 dependency with
      | none => (heap2, true)
      | some depcRec =>
        (hset heap2 dependency { depcRec with ref_count := szInc depcRec.ref_count }, true)

/-- Addresses visited by the loop `for (i = 0; i < num_of_dependencies; i++)
dec_ref(handle->dependencies[i])`: one entry per stored edge, in insertion
order.  An out-of-bounds read (impossible on well-formed handles, where the
array length equals the recorded size) is modeled as the junk address 0. -/
def depsOf (h : rclpy_handle_t) : List Nat :=
  (List.range h.num_of_dependencies).map (fun i => (h.dependencies.getD []).getD i 0)

/-- Model of `_rclpy_handle_dec_ref` (lines 78-100), with explicit fuel
bounding the recursion depth; `none` means the fuel ran out.  A `NULL`
argument is modeled as `none` and returns at once.  The record fields are
captured right after the decrement; the C code reads them through the same
pointer, which coincides as long as no recursive call reaches this handle
again (guaranteed on acyclic graphs; a cycle is undefined behavior).  The
C code asserts on entry that `dependencies` is `NULL` exactly when
`num_of_dependencies` is 0; the assertion is compiled out in release
builds and is not modeled.  Note the guard `if (handle->ref_count)` fires
the teardown branch when the post-decrement count is NONzero. -/
def _rclpy_handle_dec_ref : Nat → HState → Option Nat → Option HState
  | _, st, none => some st
  | 0, _, some _ => none
  | fuel + 1, st, some a =>
    match hget st.heap a with
    | none => some st
    | some h =>
      -- handle->ref_count--;
      let rc : Nat := szDec h.ref_count
      let h1 : rclpy_handle_t := { h with ref_count := rc }
      let st1 : HState := { st with heap := hset st.heap a h1 }
      if rc ≠ 0 then
        -- teardown branch: for each stored edge, recursive dec_ref.
        match (depsOf h1).foldl
            (fun acc d => acc.bind (fun s => _rclpy_handle_dec_ref fuel s (some d)))
            (some st1) with
        | none => none
        | some st2 =>
          -- if (handle->destructor) handle->destructor(handle->ptr);
          let st3 : HState :=
            match h1.destructor with
            | some d => { st2 with events := st2.events ++ [Event.destructorCall d h1.ptr] }
            | none => st2
          -- allocator.deallocate(handle->dependencies, ...);
          let st4 : HState := { st3 with events := st3.events ++ [Event.freeDeps a] }
          -- allocator.deallocate(handle, ...);
          some { heap := herase st4.heap a
                 events := st4.events ++ [Event.freeHandle a] }
      else
        some st1

/-- Sequential release of a list of handles: one full recursive
`_rclpy_handle_dec_ref` call per list entry, in list order. -/
def releaseEach (fuel : Nat) : HState → List Nat → Option HState
  | st, [] => some st
  | st, d :: ds =>
    match _rclpy_handle_dec_ref fuel st (some d) with
    | none => none
    | some st1 => releaseEach fuel st1 ds

/-- Events emitted by the destructor-invocation step of teardown:
one `destructorCall` event when a destructor is present, none otherwise. -/
def destructorEvents (h : rclpy_handle_t) : List Event :=
  match h.destructor with
  | some d => [Event.destructorCall d h.ptr]
  | none => []

/-! ### Basic lemmas about the machine-arithmetic and heap primitives -/

theorem szDec_eq_sub_one {n : Nat} (h0 : 0 < n) (h1 : n < USIZE) :
    szDec n = n - 1 := by
  unfold szDec USIZE at *
  omega

theorem szInc_eq_add_one {n : Nat} (h1 : n + 1 < USIZE) :
    szInc n = n + 1 := by
  unfold szInc USIZE at *
  omega

theorem hget_hset_self {hp : Heap} {a : Nat} {r x : rclpy_handle_t}
    (h : hget hp a = some r) : hget (hset hp a x) a = some x := by
  induction hp with
  | nil => simp [hget] at h
  | cons q t ih =>
    obtain ⟨qa, qr⟩ := q
    by_cases hb : qa = a
    · simp [hget, hset, hb]
    · simp only [hget, hset, if_neg hb] at h ⊢
      exact ih h

theorem hget_hset_ne {hp : Heap} {a b : Nat} {x : rclpy_handle_t}
    (h : a ≠ b) : hget (hset hp a x) b = hget hp b := by
  induction hp with
  | nil => simp [hget, hset]
  | cons q t ih =>
    obtain ⟨qa, qr⟩ := q
    by_cases hb : qa = a
    · subst hb
      simp [hget, hset, h]
    · simp only [hget, hset, if_neg hb]
      by_cases hq : qa = b
      · simp [hget, hq]
      · simp only [hget, if_neg hq]
        exact ih

theorem hget_herase_self (hp : Heap) (a : Nat) :
    hget (herase hp a) a = none := by
  induction hp with
  | nil => simp [hget, herase]
  | cons q t ih =>
    obtain ⟨qa, qr⟩ := q
    by_cases hb : qa = a
    · simp [herase, hb, ih]
    · simp [hget, herase, hb, ih]

theorem mem_hset {hp : Heap} {a : Nat} {x : rclpy_handle_t}
    {p : Nat × rclpy_handle_t} (h : p ∈ hset hp a x) : p ∈ hp ∨ p = (a, x) := by
  induction hp with
  | nil => simp [hset] at h
  | cons q t ih =>
    obtain ⟨qa, qr⟩ := q
    by_cases hb : qa = a
    · simp only [hset, if_pos hb] at h
      rcases List.mem_cons.mp h with h | h
      · right
        rw [h, hb]
      · left
        exact List.mem_cons_of_mem _ h
    · simp only [hset, if_neg hb] at h
      rcases List.mem_cons.mp h with h | h
      · left
        rw [h]
        exact List.mem_cons_self _ _
      · rcases ih h with h2 | h2
        · exact Or.inl (List.mem_cons_of_mem _ h2)
        · exact Or.inr h2

theorem mem_herase {hp : Heap} {a : Nat} {p : Nat × rclpy_handle_t}
    (h : p ∈ herase hp a) : p ∈ hp := by
  induction hp with
  | nil => simp [herase] at h
  | cons q t ih =>
    obtain ⟨qa, qr⟩ := q
    by_cases hb : qa = a
    · simp only [herase, if_pos hb] at h
      exact List.mem_cons_of_mem _ (ih h)
    · simp only [herase, if_neg hb] at h
      rcases List.mem_cons.mp h with h | h
      · rw [h]
        exact List.mem_cons_self _ _
      · exact List.mem_cons_of_mem _ (ih h)

theorem hget_mem {hp : Heap} {a : Nat} {r : rclpy_handle_t}
    (h : hget hp a = some r) : (a, r) ∈ hp := by
  induction hp with
  | nil => simp [hget] at h
  | cons q t ih =>
    obtain ⟨qa, qr⟩ := q
    by_cases hb : qa = a
    · subst hb
      simp [hget] at h
      rw [← h]
      exact List.mem_cons_self _ _
    · simp only [hget, if_neg hb] at h
      exact List.mem_cons_of_mem _ (ih h)

/-! ### Unfolding lemmas for the release recursion -/

theorem depsOf_set_ref_count (h : rclpy_handle_t) (n : Nat) :
    depsOf { h with ref_count := n } = depsOf h := rfl

theorem foldl_bind_none (fuel : Nat) (l : List Nat) :
    l.foldl (fun acc d => acc.bind (fun s => _rclpy_handle_dec_ref fuel s (some d)))
      none = none := by
  induction l with
  | nil => rfl
  | cons d ds ih => simpa using ih

theorem foldl_bind_eq_releaseEach (fuel : Nat) (l : List Nat) (st : HState) :
    l.foldl (fun acc d => acc.bind (fun s => _rclpy_handle_dec_ref fuel s (some d)))
      (some st) = releaseEach fuel st l := by
  induction l generalizing st with
  | nil => rfl
  | cons d ds ih =>
    simp only [List.foldl, Option.bind, releaseEach]
    cases hd : _rclpy_handle_dec_ref fuel st (some d) with
    | none => exact foldl_bind_none fuel ds
    | some st1 => exact ih st1

set_option maxRecDepth 4000 in
/-- One-step unfolding of `_rclpy_handle_dec_ref` on a live handle: after
the decrement, the teardown branch runs exactly when the post-decrement
count is nonzero, and consists of the sequential release of the stored
dependency edges followed by the destructor invocation, the deallocation
of the dependency array, and the deallocation of the record. -/
theorem dec_ref_succ_of_hget {st : HState} {a : Nat} {h : rclpy_handle_t}
    (fuel : Nat) (hh : hget st.heap a = some h) :
    _rclpy_handle_dec_ref (fuel + 1) st (some a) =
      if szDec h.ref_count ≠ 0 then
        match releaseEach fuel
            { st with heap := hset st.heap a { h with ref_count := szDec h.ref_count } }
            (depsOf h) with
        | none => none
        | some st2 =>
          some { heap := herase st2.heap a
                 events := st2.events ++ destructorEvents h
                   ++ [Event.freeDeps a, Event.freeHandle a] }
      else
        some { st with heap := hset st.heap a { h with ref_count := szDec h.ref_count } } := by
  rw [_rclpy_handle_dec_ref.eq_3, hh]
  dsimp only
  rw [foldl_bind_eq_releaseEach, depsOf_set_ref_count]
  by_cases hrc : szDec h.ref_count ≠ 0
  · simp only [if_pos hrc]
    cases hrel : releaseEach fuel
        { st with heap := hset st.heap a { h with ref_count := szDec h.ref_count } }
        (depsOf h) with
    | none => rfl
    | some st2 =>
      cases hd : h.destructor with
      | none => simp [destructorEvents, hd, List.append_assoc]
      | some d => simp [destructorEvents, hd, List.append_assoc]
  · simp only [if_neg hrc]

/-- Record stored for the dependent by a successful list growth in
`_rclpy_handle_add_dependency`: recorded size incremented, array grown
(old contents preserved, fresh slot uninitialized) and the last slot
overwritten with the dependency. -/
def grownRecord (hA : rclpy_handle_t) (B : Nat) : rclpy_handle_t :=
  { hA with
    num_of_dependencies := szInc hA.num_of_dependencies
    dependencies := some ((((hA.dependencies.getD []).take (szInc hA.num_of_dependencies))
      ++ List.replicate (szInc hA.num_of_dependencies - (hA.dependencies.getD []).length) 0).set
      (szInc hA.num_of_dependencies - 1) B) }

/-- Symbolic execution of a successful `_rclpy_handle_add_dependency` on
two distinct live handles: the call returns `RCUTILS_RET_OK`, stores the
grown record for the dependent, and increments the count of the dependency. -/
theorem add_dependency_true_hget {hp : Heap} {A B : Nat} {hA hB : rclpy_handle_t}
    (hhA : hget hp A = some hA) (hhB : hget hp B = some hB) (hne : A ≠ B) :
    (_rclpy_handle_add_dependency hp A B true).2 = true ∧
    hget (_rclpy_handle_add_dependency hp A B true).1 A = some (grownRecord hA B) ∧
    hget (_rclpy_handle_add_dependency hp A B true).1 B =
      some { hB with ref_count := szInc hB.ref_count } := by
  have h1 : hget (hset hp A { hA with num_of_dependencies := szInc hA.num_of_dependencies }) A
      = some { hA with num_of_dependencies := szInc hA.num_of_dependencies } :=
    hget_hset_self hhA
  have h2 : hget (hset (hset hp A { hA with num_of_dependencies := szInc hA.num_of_dependencies })
      A (grownRecord hA B)) A = some (grownRecord hA B) :=
    hget_hset_self h1
  have hB2 : hget (hset (hset hp A { hA with num_of_dependencies := szInc hA.num_of_dependencies })
      A (grownRecord hA B)) B = some hB := by
    rw [hget_hset_ne hne, hget_hset_ne hne]
    exact hhB
  simp only [_rclpy_handle_add_dependency]
  rw [hhA]
  dsimp only
  unfold grownRecord at hB2
  rw [hB2]
  dsimp only
  refine ⟨rfl, ?_, ?_⟩
  · rw [hget_hset_ne (Ne.symm hne)]
    exact h2
  · exact hget_hset_self hB2

/-- Writing over the final slot of a one-longer array keeps the prefix and
replaces the last element. -/
theorem set_append_length (l : List Nat) (x y : Nat) :
    (l ++ [x]).set l.length y = l ++ [y] := by
  induction l with
  | nil => rfl
  | cons a t ih => simp [ih]

theorem dec_ref_null (fuel : Nat) (st : HState) :
    _rclpy_handle_dec_ref fuel st none = some st := by
  cases fuel <;> rfl

theorem dec_ref_fuel_zero (st : HState) (a : Nat) :
    _rclpy_handle_dec_ref 0 st (some a) = none := rfl

theorem dec_ref_succ_of_hget_none {st : HState} {a : Nat} (fuel : Nat)
    (hh : hget st.heap a = none) :
    _rclpy_handle_dec_ref (fuel + 1) st (some a) = some st := by
  rw [_rclpy_handle_dec_ref.eq_3, hh]

/-! ### Claims -/

/-- Symbolic execution of a successful `_rclpy_create_handle`: the new
address is returned and the stored record is fully determined. -/
theorem create_handle_true_hget (hp : Heap) (a p : Nat) (d : Option Nat) :
    (_rclpy_create_handle hp a p d true).2 = some a ∧
    hget (_rclpy_create_handle hp a p d true).1 a =
      some { ptr := p
             ref_count := 1
             dependencies := none
             num_of_dependencies := 0
             destructor := d } := by
  have h1 : szInc 0 = 1 := by decide
  constructor
  · rfl
  · simp [_rclpy_create_handle, hget, h1]

/-- Claim C6: a successful `_rclpy_create_handle` returns a handle whose
reference count is 1, whose dependency list is empty (`NULL` array
pointer, recorded size 0), and whose resource pointer and destructor
fields equal the given arguments. -/
theorem create_handle_success_spec (hp : Heap) (a p : Nat) (d : Option Nat) :
    (_rclpy_create_handle hp a p d true).2 = some a ∧
    hget (_rclpy_create_handle hp a p d true).1 a =
      some { ptr := p
             ref_count := 1
             dependencies := none
             num_of_dependencies := 0
             destructor := d } :=
  create_handle_true_hget hp a p d

/-- Claim C8: when the allocator cannot satisfy the request,
`_rclpy_create_handle` returns a null handle and the heap is exactly the
heap from before the call; no partially constructed handle survives. -/
theorem create_handle_alloc_failure (hp : Heap) (a p : Nat) (d : Option Nat) :
    _rclpy_create_handle hp a p d false = (hp, none) := rfl

/-- Claim C1, behavior of the code at the failing input: releasing a
handle with no dependencies and reference count exactly 1 invokes no
destructor and does not tear the handle down.  The inverted guard
`if (handle->ref_count)` skips teardown precisely when the post-decrement
count is zero, so the record stays in the heap with count 0 and the event
trace stays empty (handle fields in constructor order: ptr, ref_count,
dependencies, num_of_dependencies, destructor). -/
theorem dec_ref_refcount_one_no_teardown :
    _rclpy_handle_dec_ref 1 ⟨[(1, ⟨7, 1, none, 0, some 5⟩)], []⟩ (some 1) =
      some ⟨[(1, ⟨7, 0, none, 0, some 5⟩)], []⟩ := by
  decide

/-- Claim C2, behavior of the code at the failing input: releasing a
handle with reference count 2 (still depended upon) fires the teardown
branch, because the post-decrement count 1 is nonzero: the destructor IS
invoked, the storage is deallocated and the handle leaves the heap,
instead of the handle staying intact with count 1. -/
theorem dec_ref_refcount_two_teardown_fires :
    _rclpy_handle_dec_ref 1 ⟨[(1, ⟨7, 2, none, 0, some 5⟩)], []⟩ (some 1) =
      some ⟨[], [Event.destructorCall 5 7, Event.freeDeps 1, Event.freeHandle 1]⟩ := by
  decide

/-- Claim C4, behavior of the code at the failing input: a failing
reallocation inside `_rclpy_handle_add_dependency` on two fresh handles
returns `RCUTILS_RET_ERROR` but does NOT leave both handles as they were:
the recorded number of dependencies of the dependent has been incremented
from 0 to 1 (with the array pointer still `NULL`), while the reference
count of the dependency is unchanged. -/
theorem add_dependency_alloc_failure_mutates_dependent :
    _rclpy_handle_add_dependency
        [(1, ⟨7, 1, none, 0, none⟩), (2, ⟨8, 1, none, 0, none⟩)] 1 2 false =
      ([(1, ⟨7, 1, none, 1, none⟩), (2, ⟨8, 1, none, 0, none⟩)], false) := by
  decide

/-- Claim C5: a successful `_rclpy_handle_add_dependency` on two distinct
valid handles appends the dependency at the end of the dependency list of
the dependent (preserving insertion order; a duplicate entry is simply
stored again), increments the reference count of the dependency by exactly
1, and leaves unchanged the reference count, resource pointer and
destructor of the dependent. -/
theorem add_dependency_success_spec {hp : Heap} {A B : Nat}
    {hA hB : rclpy_handle_t}
    (hhA : hget hp A = some hA) (hhB : hget hp B = some hB) (hne : A ≠ B)
    (hlen : (hA.dependencies.getD []).length = hA.num_of_dependencies)
    (hnum : hA.num_of_dependencies + 1 < USIZE)
    (hrcB : hB.ref_count + 1 < USIZE) :
    (_rclpy_handle_add_dependency hp A B true).2 = true ∧
    hget (_rclpy_handle_add_dependency hp A B true).1 A =
      some { hA with
             num_of_dependencies := hA.num_of_dependencies + 1
             dependencies := some ((hA.dependencies.getD []) ++ [B]) } ∧
    hget (_rclpy_handle_add_dependency hp A B true).1 B =
      some { hB with ref_count := hB.ref_count + 1 } := by
  obtain ⟨ht, hAres, hBres⟩ := add_dependency_true_hget hhA hhB hne
  have hgr : grownRecord hA B =
      { hA with
        num_of_dependencies := hA.num_of_dependencies + 1
        dependencies := some ((hA.dependencies.getD []) ++ [B]) } := by
    unfold grownRecord
    rw [szInc_eq_add_one hnum]
    have htake : (hA.dependencies.getD []).take (hA.num_of_dependencies + 1)
        = hA.dependencies.getD [] := List.take_of_length_le (by omega)
    have hrep : hA.num_of_dependencies + 1 - (hA.dependencies.getD []).length = 1 := by
      omega
    have hone : List.replicate 1 (0 : Nat) = [0] := rfl
    have hidx : hA.num_of_dependencies + 1 - 1 = (hA.dependencies.getD []).length := by
      omega
    rw [htake, hrep, hone, hidx, set_append_length]
  refine ⟨ht, ?_, ?_⟩
  · rw [hAres, hgr]
  · rw [hBres, szInc_eq_add_one hrcB]

/-- Witness for claim C5 at a concrete input: two live handles at
addresses 1 and 2, where 1 already depends on 2 once, so the new edge is
a duplicate: it is appended at the end and the count of handle 2 rises
from 2 to 3. -/
theorem add_dependency_success_spec_witness :
    hget [(1, ⟨7, 1, some [2], 1, none⟩), (2, ⟨8, 2, none, 0, none⟩)] 1
        = some ⟨7, 1, some [2], 1, none⟩ ∧
    (_rclpy_handle_add_dependency
        [(1, ⟨7, 1, some [2], 1, none⟩), (2, ⟨8, 2, none, 0, none⟩)] 1 2 true).2 = true ∧
    hget (_rclpy_handle_add_dependency
        [(1, ⟨7, 1, some [2], 1, none⟩), (2, ⟨8, 2, none, 0, none⟩)] 1 2 true).1 1 =
      some ⟨7, 1, some [2, 2], 2, none⟩ ∧
    hget (_rclpy_handle_add_dependency
        [(1, ⟨7, 1, some [2], 1, none⟩), (2, ⟨8, 2, none, 0, none⟩)] 1 2 true).1 2 =
      some ⟨8, 3, none, 0, none⟩ :=
  ⟨rfl, @add_dependency_success_spec
    [(1, ⟨7, 1, some [2], 1, none⟩), (2, ⟨8, 2, none, 0, none⟩)] 1 2
    ⟨7, 1, some [2], 1, none⟩ ⟨8, 2, none, 0, none⟩
    rfl rfl (by decide) rfl (by decide) (by decide)⟩

/-- Structural invariant asserted at entry to `_rclpy_handle_dec_ref`
(lines 84-86 of the C source): the dependency array pointer is `NULL`
exactly when the recorded number of dependencies is zero. -/
def HandleInv (h : rclpy_handle_t) : Prop :=
  h.dependencies = none ↔ h.num_of_dependencies = 0

instance (h : rclpy_handle_t) : Decidable (HandleInv h) := by
  unfold HandleInv
  infer_instance

/-- Claim C10: every handle stored by a successful `_rclpy_create_handle`
satisfies the null-iff-zero invariant, and after a successful
`_rclpy_handle_add_dependency` on two distinct live handles (the
dependency satisfying the invariant beforehand, the recorded size of the
dependent not overflowing) both updated records satisfy it again. -/
theorem handle_invariant_create_and_add :
    (∀ (hp : Heap) (a p : Nat) (d : Option Nat) (h : rclpy_handle_t),
      hget (_rclpy_create_handle hp a p d true).1 a = some h → HandleInv h) ∧
    (∀ (hp : Heap) (A B : Nat) (hA hB h : rclpy_handle_t),
      hget hp A = some hA → hget hp B = some hB → A ≠ B →
      HandleInv hB → hA.num_of_dependencies + 1 < USIZE →
      ((hget (_rclpy_handle_add_dependency hp A B true).1 A = some h → HandleInv h) ∧
       (hget (_rclpy_handle_add_dependency hp A B true).1 B = some h → HandleInv h))) := by
  constructor
  · intro hp a p d h hh
    obtain ⟨-, hc⟩ := create_handle_true_hget hp a p d
    rw [hc, Option.some.injEq] at hh
    rw [← hh]
    simp [HandleInv]
  · intro hp A B hA hB h hhA hhB hne hInvB hnum
    obtain ⟨-, hAres, hBres⟩ := add_dependency_true_hget hhA hhB hne
    constructor
    · intro hh
      rw [hAres, Option.some.injEq] at hh
      rw [← hh]
      unfold HandleInv grownRecord
      rw [szInc_eq_add_one hnum]
      simp
    · intro hh
      rw [hBres, Option.some.injEq] at hh
      rw [← hh]
      unfold HandleInv at hInvB ⊢
      exact hInvB

/-- Witness for claim C10 at concrete inputs: the invariant holds for the
record created at address 1 over the empty heap, and for both records
after adding to handle 1 (fresh) a dependency on handle 2 (fresh) in a
two-handle heap. -/
theorem handle_invariant_create_and_add_witness :
    HandleInv ⟨7, 1, none, 0, none⟩ ∧
    HandleInv ⟨7, 1, some [2], 1, none⟩ ∧
    HandleInv ⟨8, 2, none, 0, none⟩ :=
  ⟨handle_invariant_create_and_add.1 [] 1 7 none ⟨7, 1, none, 0, none⟩ rfl,
   (handle_invariant_create_and_add.2
      [(1, ⟨7, 1, none, 0, none⟩), (2, ⟨8, 1, none, 0, none⟩)] 1 2
      ⟨7, 1, none, 0, none⟩ ⟨8, 1, none, 0, none⟩ ⟨7, 1, some [2], 1, none⟩
      rfl rfl (by decide) (by decide) (by decide)).1 (by decide),
   (handle_invariant_create_and_add.2
      [(1, ⟨7, 1, none, 0, none⟩), (2, ⟨8, 1, none, 0, none⟩)] 1 2
      ⟨7, 1, none, 0, none⟩ ⟨8, 1, none, 0, none⟩ ⟨8, 2, none, 0, none⟩
      rfl rfl (by decide) (by decide) (by decide)).2 (by decide)⟩

/-- Claim C3: in the implemented release operation, the teardown branch
executes if and only if the reference count after the decrement is
nonzero.  Observably: when the post-decrement count is zero the call
returns with the handle still in the heap (merely decremented), and when
it is nonzero the call either runs out of fuel inside the teardown branch
or returns with the handle erased from the heap. -/
theorem dec_ref_teardown_iff_post_decrement_nonzero
    {st : HState} {a : Nat} {h : rclpy_handle_t} (fuel : Nat)
    (hh : hget st.heap a = some h) :
    (szDec h.ref_count ≠ 0) ↔
      (_rclpy_handle_dec_ref (fuel + 1) st (some a) = none ∨
       ∀ st2, _rclpy_handle_dec_ref (fuel + 1) st (some a) = some st2 →
         hget st2.heap a = none) := by
  rw [dec_ref_succ_of_hget fuel hh]
  by_cases hrc : szDec h.ref_count ≠ 0
  · simp only [if_pos hrc]
    refine iff_of_true hrc ?_
    cases hrel : releaseEach fuel
        { st with heap := hset st.heap a { h with ref_count := szDec h.ref_count } }
        (depsOf h) with
    | none => exact Or.inl rfl
    | some st2 =>
      refine Or.inr ?_
      intro st3 hst3
      rw [Option.some.injEq] at hst3
      rw [← hst3]
      exact hget_herase_self st2.heap a
  · simp only [if_neg hrc]
    refine iff_of_false hrc ?_
    intro hcon
    rcases hcon with hnone | hall
    · exact Option.noConfusion hnone
    · have h2 := hall _ rfl
      rw [hget_hset_self hh] at h2
      exact Option.noConfusion h2

/-- Witness for claim C3 at a concrete input: a single fresh handle at
address 1 with reference count 1; the post-decrement count 0 means the
teardown branch does not run, so neither disjunct of the right side
holds, matching the left side being false. -/
theorem dec_ref_teardown_iff_witness :
    hget (⟨[(1, ⟨7, 1, none, 0, some 5⟩)], []⟩ : HState).heap 1
        = some ⟨7, 1, none, 0, some 5⟩ ∧
    ((szDec (1 : Nat) ≠ 0) ↔
      (_rclpy_handle_dec_ref 1 ⟨[(1, ⟨7, 1, none, 0, some 5⟩)], []⟩ (some 1) = none ∨
       ∀ st2, _rclpy_handle_dec_ref 1 ⟨[(1, ⟨7, 1, none, 0, some 5⟩)], []⟩ (some 1)
           = some st2 → hget st2.heap 1 = none)) :=
  ⟨rfl, @dec_ref_teardown_iff_post_decrement_nonzero
    ⟨[(1, ⟨7, 1, none, 0, some 5⟩)], []⟩ 1 ⟨7, 1, none, 0, some 5⟩ 0 rfl⟩

/-- Claim C7: whenever the teardown branch of release fires on a live
handle, the result decomposes in order as: one full recursive release per
stored dependency edge, in insertion order including duplicates
(`releaseEach` over `depsOf`); then the destructor event, exactly once,
with the stored resource pointer, when a destructor is present; then the
deallocation of the dependency array; then the deallocation of the handle
record, which disappears from the heap. -/
theorem dec_ref_teardown_order {st : HState} {a : Nat} {h : rclpy_handle_t}
    {st2 : HState} (fuel : Nat)
    (hh : hget st.heap a = some h)
    (hrc : szDec h.ref_count ≠ 0)
    (hrel : releaseEach fuel
        { st with heap := hset st.heap a { h with ref_count := szDec h.ref_count } }
        (depsOf h) = some st2) :
    _rclpy_handle_dec_ref (fuel + 1) st (some a) =
      some { heap := herase st2.heap a
             events := st2.events ++ destructorEvents h
               ++ [Event.freeDeps a, Event.freeHandle a] } := by
  rw [dec_ref_succ_of_hget fuel hh]
  rw [if_pos hrc, hrel]

/-- Witness for claim C7 at a concrete input: handle 1 (count 2, one
dependency edge to handle 2, destructor 5) is released; teardown fires,
first releasing handle 2 (count 1, so it is merely decremented to 0 by
the inverted guard), then the destructor, then the two deallocations. -/
theorem dec_ref_teardown_order_witness :
    hget (⟨[(1, ⟨7, 2, some [2], 1, some 5⟩), (2, ⟨8, 1, none, 0, none⟩)], []⟩
        : HState).heap 1 = some ⟨7, 2, some [2], 1, some 5⟩ ∧
    szDec (2 : Nat) ≠ 0 ∧
    releaseEach 1
        ⟨[(1, ⟨7, 1, some [2], 1, some 5⟩), (2, ⟨8, 1, none, 0, none⟩)], []⟩ [2]
      = some ⟨[(1, ⟨7, 1, some [2], 1, some 5⟩), (2, ⟨8, 0, none, 0, none⟩)], []⟩ ∧
    _rclpy_handle_dec_ref 2
        ⟨[(1, ⟨7, 2, some [2], 1, some 5⟩), (2, ⟨8, 1, none, 0, none⟩)], []⟩ (some 1) =
      some { heap := herase
               ([(1, ⟨7, 1, some [2], 1, some 5⟩), (2, ⟨8, 0, none, 0, none⟩)] : Heap) 1
             events := ([] : List Event) ++ destructorEvents ⟨7, 2, some [2], 1, some 5⟩
               ++ [Event.freeDeps 1, Event.freeHandle 1] } :=
  ⟨rfl, by decide, by decide,
   @dec_ref_teardown_order
     ⟨[(1, ⟨7, 2, some [2], 1, some 5⟩), (2, ⟨8, 1, none, 0, none⟩)], []⟩ 1
     ⟨7, 2, some [2], 1, some 5⟩
     ⟨[(1, ⟨7, 1, some [2], 1, some 5⟩), (2, ⟨8, 0, none, 0, none⟩)], []⟩ 1
     rfl (by decide) (by decide)⟩

/-- Acyclicity certificate for the dependency graph of a heap: a rank
function on addresses that strictly decreases along every stored edge.
A finite acyclic graph always admits one (a topological height). -/
def Ranked (hp : Heap) (rank : Nat → Nat) : Prop :=
  ∀ p ∈ hp, ∀ d ∈ depsOf p.2, rank d < rank p.1

instance (hp : Heap) (rank : Nat → Nat) : Decidable (Ranked hp rank) := by
  unfold Ranked
  infer_instance

theorem Ranked_hget {hp : Heap} {rank : Nat → Nat} {a : Nat}
    {h : rclpy_handle_t} (hr : Ranked hp rank) (hh : hget hp a = some h) :
    ∀ d ∈ depsOf h, rank d < rank a :=
  hr (a, h) (hget_mem hh)

theorem Ranked_hset {hp : Heap} {rank : Nat → Nat} {a : Nat}
    {x h : rclpy_handle_t} (hr : Ranked hp rank) (hh : hget hp a = some h)
    (hd : depsOf x = depsOf h) : Ranked (hset hp a x) rank := by
  intro p hp2 d hd2
  rcases mem_hset hp2 with hmem | heq
  · exact hr p hmem d hd2
  · rw [heq] at hd2 ⊢
    exact Ranked_hget hr hh d (hd ▸ hd2)

theorem Ranked_herase {hp : Heap} {rank : Nat → Nat} {a : Nat}
    (hr : Ranked hp rank) : Ranked (herase hp a) rank :=
  fun p hp2 d hd2 => hr p (mem_herase hp2) d hd2

/-- Sequential release preserves the rank certificate, given that a single
release at this fuel level does. -/
theorem releaseEach_ranked {rank : Nat → Nat} (fuel : Nat)
    (IH : ∀ (st : HState) (a : Option Nat) (st2 : HState), Ranked st.heap rank →
      _rclpy_handle_dec_ref fuel st a = some st2 → Ranked st2.heap rank) :
    ∀ (l : List Nat) (st st2 : HState), Ranked st.heap rank →
      releaseEach fuel st l = some st2 → Ranked st2.heap rank := by
  intro l
  induction l with
  | nil =>
    intro st st2 hr he
    simp only [releaseEach, Option.some.injEq] at he
    rw [← he]
    exact hr
  | cons d ds ih =>
    intro st st2 hr he
    simp only [releaseEach] at he
    cases hd : _rclpy_handle_dec_ref fuel st (some d) with
    | none => rw [hd] at he; exact Option.noConfusion he
    | some st1 =>
      rw [hd] at he
      exact ih st1 st2 (IH st (some d) st1 hr hd) he

/-- Release preserves the rank certificate: it only rewrites reference
counts (leaving the dependency structure of each record unchanged) and
erases records. -/
theorem dec_ref_ranked {rank : Nat → Nat} :
    ∀ (fuel : Nat) (st : HState) (a : Option Nat) (st2 : HState),
      Ranked st.heap rank → _rclpy_handle_dec_ref fuel st a = some st2 →
      Ranked st2.heap rank := by
  intro fuel
  induction fuel with
  | zero =>
    intro st a st2 hr he
    cases a with
    | none =>
      rw [dec_ref_null, Option.some.injEq] at he
      rw [← he]
      exact hr
    | some a => exact Option.noConfusion he
  | succ fuel ih =>
    intro st a st2 hr he
    cases a with
    | none =>
      rw [dec_ref_null, Option.some.injEq] at he
      rw [← he]
      exact hr
    | some a =>
      cases hh : hget st.heap a with
      | none =>
        rw [dec_ref_succ_of_hget_none fuel hh, Option.some.injEq] at he
        rw [← he]
        exact hr
      | some h =>
        rw [dec_ref_succ_of_hget fuel hh] at he
        have hr1 : Ranked (hset st.heap a { h with ref_count := szDec h.ref_count }) rank :=
          Ranked_hset hr hh (depsOf_set_ref_count h _)
        by_cases hrc : szDec h.ref_count ≠ 0
        · rw [if_pos hrc] at he
          cases hrel : releaseEach fuel
              { st with heap := hset st.heap a { h with ref_count := szDec h.ref_count } }
              (depsOf h) with
          | none => rw [hrel] at he; exact Option.noConfusion he
          | some stm =>
            rw [hrel, Option.some.injEq] at he
            rw [← he]
            exact Ranked_herase (releaseEach_ranked fuel ih (depsOf h) _ stm hr1 hrel)
        · rw [if_neg hrc, Option.some.injEq] at he
          rw [← he]
          exact hr1

/-- Sequential release of targets of rank below the fuel level succeeds,
given that a single release does. -/
theorem releaseEach_isSome {rank : Nat → Nat} (fuel : Nat)
    (IH : ∀ (st : HState) (d : Nat), Ranked st.heap rank → rank d < fuel →
      ∃ st2, _rclpy_handle_dec_ref fuel st (some d) = some st2) :
    ∀ (l : List Nat) (st : HState), Ranked st.heap rank →
      (∀ d ∈ l, rank d < fuel) → ∃ st2, releaseEach fuel st l = some st2 := by
  intro l
  induction l with
  | nil =>
    intro st hr hb
    exact ⟨st, rfl⟩
  | cons d ds ih =>
    intro st hr hb
    obtain ⟨st1, hst1⟩ := IH st d hr (hb d (List.mem_cons_self d ds))
    have hr1 := dec_ref_ranked fuel st (some d) st1 hr hst1
    obtain ⟨st2, hst2⟩ := ih st1 hr1 (fun e he => hb e (List.mem_cons_of_mem d he))
    refine ⟨st2, ?_⟩
    simp only [releaseEach, hst1]
    exact hst2

/-- Claim C9: on a heap whose dependency graph is finite and acyclic
(witnessed by a rank function strictly decreasing along stored edges),
the release operation terminates: any fuel larger than the rank of the
released handle makes the fueled recursion complete. -/
theorem dec_ref_terminates {rank : Nat → Nat} :
    ∀ (fuel : Nat) (st : HState) (a : Nat), Ranked st.heap rank → rank a < fuel →
      ∃ st2, _rclpy_handle_dec_ref fuel st (some a) = some st2 := by
  intro fuel
  induction fuel with
  | zero =>
    intro st a hr hlt
    exact absurd hlt (Nat.not_lt_zero _)
  | succ fuel ih =>
    intro st a hr hlt
    cases hh : hget st.heap a with
    | none => exact ⟨st, dec_ref_succ_of_hget_none fuel hh⟩
    | some h =>
      rw [dec_ref_succ_of_hget fuel hh]
      by_cases hrc : szDec h.ref_count ≠ 0
      · rw [if_pos hrc]
        have hdeps : ∀ d ∈ depsOf h, rank d < fuel := by
          intro d hd
          have h1 := Ranked_hget hr hh d hd
          omega
        have hr1 : Ranked (hset st.heap a { h with ref_count := szDec h.ref_count }) rank :=
          Ranked_hset hr hh (depsOf_set_ref_count h _)
        obtain ⟨st2, hst2⟩ := releaseEach_isSome fuel ih (depsOf h)
          { st with heap := hset st.heap a { h with ref_count := szDec h.ref_count } }
          hr1 hdeps
        rw [hst2]
        exact ⟨_, rfl⟩
      · rw [if_neg hrc]
        exact ⟨_, rfl⟩

/-- Witness for claim C9 at a concrete input: a two-handle chain (1
depends on 2) ranked by height, released with fuel 3 > rank 1 = 2. -/
theorem dec_ref_terminates_witness :
    Ranked [(1, ⟨7, 2, some [2], 1, none⟩), (2, ⟨8, 1, none, 0, none⟩)]
        (fun a => 3 - a) ∧
    (3 : Nat) - 1 < 3 ∧
    ∃ st2, _rclpy_handle_dec_ref 3
        ⟨[(1, ⟨7, 2, some [2], 1, none⟩), (2, ⟨8, 1, none, 0, none⟩)], []⟩ (some 1)
      = some st2 :=
  ⟨by decide, by decide,
   @dec_ref_terminates (fun a => 3 - a) 3
     ⟨[(1, ⟨7, 2, some [2], 1, none⟩), (2, ⟨8, 1, none, 0, none⟩)], []⟩ 1
     (by decide) (by decide)⟩
